import Mathlib

/-!
# httpkg: request builder, query merger and cookie-line parser

A shallow embedding of `src/http.go` and `src/cookie.go`.

* Go `string` and `[]byte` values are byte sequences (`GoString`).
* A Go run-time panic is the result `none`.
* The Go map `qs` is an association list with one entry per key; the order in
  which one `range` statement visits the entries is not fixed by the language,
  so it is an explicit argument `order` of every function that ranges over the
  map, and the theorems quantify over all permutations of the entries.
* The transports (`fasthttp.Client`, `fasthttp.HostClient`) and the JSON encoder
  are collaborators outside the repository: they are arguments.
-/

namespace Httpkg

/-! ## Strings -/

/-- Go `string` / `[]byte`: a finite sequence of bytes. -/
abbrev GoString := List UInt8

/-- The bytes of a string literal (Go source text is UTF-8). -/
def str (s : String) : GoString := s.toList.flatMap String.utf8EncodeChar

/-- The byte of an ASCII character literal such as `'&'`. -/
def byte (c : Char) : UInt8 := c.toNat.toUInt8

/-- Go slice expression `s[0:hi]` with a run-time index `hi`: it panics unless
`0 ≤ hi ≤ len(s)`. -/
def slice0 (s : GoString) (hi : Int) : Option GoString :=
  if 0 ≤ hi ∧ hi ≤ (s.length : Int) then some (s.take hi.toNat) else none

/-- Go `strings.Cut(s, sep)` for a one-byte separator: the text before the first
`sep`, the text after it, and whether `sep` occurs; `(s, "", false)` when it
does not. -/
def Cut : GoString → UInt8 → GoString × GoString × Bool
  | [], _ => ([], [], false)
  | c :: cs, sep =>
    if c = sep then ([], cs, true)
    else ((c :: (Cut cs sep).1), (Cut cs sep).2.1, (Cut cs sep).2.2)

/-- Go `net/textproto.isASCIISpace`. -/
def isASCIISpace (b : UInt8) : Bool :=
  b == byte ' ' || b == byte '\t' || b == byte '\n' || b == byte '\r'

/-- Go `net/textproto.TrimString`: drop leading, then trailing, ASCII space. -/
def TrimString (s : GoString) : GoString :=
  (s.dropWhile isASCIISpace).rdropWhile isASCIISpace

/-- Go `net/url.shouldEscape` in mode `encodeQueryComponent`: everything but
ASCII letters, digits and `-`, `_`, `.`, `~` is escaped. -/
def shouldEscape (c : UInt8) : Bool :=
  if (byte 'a' ≤ c ∧ c ≤ byte 'z') ∨ (byte 'A' ≤ c ∧ c ≤ byte 'Z')
      ∨ (byte '0' ≤ c ∧ c ≤ byte '9') then false
  else if c = byte '-' ∨ c = byte '_' ∨ c = byte '.' ∨ c = byte '~' then false
  else true

/-- Go `net/url.upperhex`, indexed by a nibble. -/
def upperhex (n : Nat) : UInt8 := (str "0123456789ABCDEF").getD n 0

/-- Go `net/url.QueryEscape`: a space becomes `+`, every other byte to escape
becomes `%XX`, the rest is copied. -/
def QueryEscape (s : GoString) : GoString :=
  s.flatMap fun c =>
    if c = byte ' ' then [byte '+']
    else if shouldEscape c then [byte '%', upperhex (c.toNat / 16), upperhex (c.toNat % 16)]
    else [c]

/-! ## Cookies (`cookie.go`) -/

/-- Go `Cookie`. -/
structure Cookie where
  Name : GoString
  Value : GoString
deriving DecidableEq, Repr

/-- The `for len(line) > 0` loop of `readCookies`. Each pass cuts at least one
byte off `line`; `fuel` bounds the number of passes and `none` means the bound
was too small. -/
def readCookiesLoop : Nat → GoString → List Cookie → Option (List Cookie)
  | _, [], cookies => some cookies
  | 0, _ :: _, _ => none
  | fuel + 1, c :: cs, cookies =>
    let line := c :: cs
    let part := TrimString (Cut line (byte ';')).1
    let line := (Cut line (byte ';')).2.1
    if part = [] then readCookiesLoop fuel line cookies
    else
      let name := (Cut part (byte '=')).1
      let val := (Cut part (byte '=')).2.1
      readCookiesLoop fuel line (cookies ++ [{ Name := name, Value := val }])

/-- Go `readCookies`. The loop runs with `len(line)` passes available. -/
def readCookies (line : GoString) : Option (List Cookie) :=
  if line.length = 0 then some []
  else
    let line := TrimString line
    readCookiesLoop line.length line []

/-- The segments of a cookie line in the words of the specification: the trimmed
line split on `;`, each segment trimmed, the empty ones dropped. -/
def cookieSegments (line : GoString) : List GoString :=
  (((TrimString line).splitOn (byte ';')).map TrimString).filter (fun seg => seg ≠ [])

/-- The record of one segment in the words of the specification: the name is the
text before the first `=`, the value all text after that first `=`; without `=`
the name is the whole segment and the value is empty. -/
def cookieOfSegment (seg : GoString) : Cookie :=
  { Name := seg.takeWhile (fun b => b != byte '=')
    Value := (seg.dropWhile (fun b => b != byte '=')).drop 1 }

/-- The cookie-line parser of the specification (section 4.1). -/
def parseCookieLine (line : GoString) : List Cookie :=
  (cookieSegments line).map cookieOfSegment

/-! ## Collaborators of `http.go` -/

/-- Go `error` values: an error raised by a collaborator, or `errors.Wrap`
around another error. -/
inductive GoError where
  | mk (msg : GoString)
  | wrap (cause : GoError) (msg : GoString)
deriving DecidableEq, Repr

/-- Go `time.Second`, in nanoseconds (`time.Duration` counts nanoseconds). -/
def Second : Int := 1000000000

namespace fasthttp

/-- The part of `fasthttp.URI` the builder reads and writes. -/
structure URI where
  scheme : GoString
  host : GoString
  path : GoString
  queryString : GoString
deriving DecidableEq, Repr

/-- The part of `fasthttp.RequestHeader` the builder writes. -/
structure RequestHeader where
  method : GoString
  contentLength : Int
  contentType : GoString
  h : List (GoString × GoString)
  cookies : List (GoString × GoString)
deriving DecidableEq, Repr

/-- The part of `fasthttp.Request` the builder writes. -/
structure Request where
  Header : RequestHeader
  body : GoString
  uri : URI
deriving DecidableEq, Repr

/-- The part of `fasthttp.Response` the builder reads. -/
structure Response where
  statusCode : Int
  body : GoString
deriving DecidableEq, Repr

/-- Result of `fasthttp.AcquireURI()`: an empty URI. -/
def AcquireURI : URI := { scheme := [], host := [], path := [], queryString := [] }

/-- Result of `fasthttp.AcquireRequest()`: an empty request. -/
def AcquireRequest : Request :=
  { Header := { method := [], contentLength := 0, contentType := [], h := [], cookies := [] }
    body := []
    uri := AcquireURI }

/-- Result of `fasthttp.AcquireResponse()`: an empty response. -/
def AcquireResponse : Response := { statusCode := 200, body := [] }

end fasthttp

/-- What `DoTimeout(req, resp, timeout)` of a client does: it fills the response
holder and may return an error. -/
abbrev DoTimeout := fasthttp.Request → fasthttp.Response → Int → fasthttp.Response × Option GoError

/-- The two client handles of a builder: `h.c` (HTTP/1.1) and `h.h2c` (HTTP/2). -/
structure Transport where
  c : DoTimeout
  h2c : DoTimeout

/-- The calls a builder makes on its collaborators, in order. -/
inductive Event where
  | DoTimeout (usedH2 : Bool) (req : fasthttp.Request) (timeout : Int)
  | ReleaseResponse
  | ReleaseRequest
deriving DecidableEq, Repr

/-! ## The builder (`http.go`) -/

/-- Go `fasthttp.MethodGet`. -/
def MethodGet : GoString := str "GET"

/-- Go `fasthttp.MethodPost`. -/
def MethodPost : GoString := str "POST"

/-- Go `map[string][]string`: one entry per key. -/
abbrev QueryMap := List (GoString × List GoString)

/-- Go map read `m, ok := qs[k]`: `none` when `ok` is false. -/
def mapGet : QueryMap → GoString → Option (List GoString)
  | [], _ => none
  | kv :: rest, k => if kv.1 = k then some kv.2 else mapGet rest k

/-- Go map write `qs[k] = v`. -/
def mapSet : QueryMap → GoString → List GoString → QueryMap
  | [], k, v => [(k, v)]
  | kv :: rest, k, v => if kv.1 = k then (k, v) :: rest else kv :: mapSet rest k v

/-- Go `http` struct. The client handles `c` and `h2c` are the `Transport` given
to the terminal calls. -/
structure http where
  usedH2 : Bool
  req : fasthttp.Request
  resp : fasthttp.Response
  uri : fasthttp.URI
  qs : QueryMap
  method : GoString
  contentType : GoString
  timeout : Int
deriving DecidableEq, Repr

/-- Go `new`. -/
def new (method : GoString) : http :=
  { usedH2 := false
    req := fasthttp.AcquireRequest
    resp := fasthttp.AcquireResponse
    uri := fasthttp.AcquireURI
    qs := []
    method := method
    contentType := []
    timeout := 0 }

/-- Go `newH2`, when `http2.ConfigureClient` succeeds. -/
def newH2 (method : GoString) : http :=
  { usedH2 := true
    req := fasthttp.AcquireRequest
    resp := fasthttp.AcquireResponse
    uri := fasthttp.AcquireURI
    qs := []
    method := method
    contentType := []
    timeout := 0 }

/-- Go `(*http).Param`. -/
def http.Param (h : http) (k v : GoString) : http :=
  match mapGet h.qs k with
  | some m => { h with qs := mapSet h.qs k (m ++ [v]) }
  | none => { h with qs := mapSet h.qs k [v] }

/-- Go `(*http).buildQueryString`. `order` is the sequence of entries the
`range h.qs` statement visits; `none` is the panic of the final slice
expression. -/
def http.buildQueryString (h : http) (order : QueryMap) : Option GoString :=
  let buf : GoString := h.uri.queryString
  let buf : GoString :=
    if h.qs.length > 0 then
      order.foldl
        (fun buf kv =>
          kv.2.foldl
            (fun buf vv => buf ++ QueryEscape kv.1 ++ [byte '='] ++ QueryEscape vv ++ [byte '&'])
            buf)
        (buf ++ [byte '&'])
    else buf
  slice0 buf ((buf.length : Int) - 1)

/-- Go `(*http).SetTimeout`. -/
def http.SetTimeout (h : http) (dur : Int) : http := { h with timeout := dur }

/-- Go `(*http).JSONMarshal`. `encode` is `json.NewEncoder(bf).Encode` followed
by `bf.Bytes()`; an `interface{}` argument is `none` when it is `nil`. -/
def http.JSONMarshal {α : Type} (_h : http) (encode : Option α → Except GoError GoString)
    (obj : Option α) : Except GoError GoString :=
  match encode obj with
  | .error err => .error err
  | .ok b => .ok b

/-- Go `(*http).JsonBody`: the builder and the returned error. -/
def http.JsonBody {α : Type} (h : http) (encode : Option α → Except GoError GoString)
    (body : Option α) : http × Option GoError :=
  match body with
  | some _ =>
    match h.JSONMarshal encode body with
    | .error err => (h, some (GoError.wrap err (str "obj could not be converted to JSON body")))
    | .ok b =>
      let req := { h.req with body := b }
      let req := { req with Header := { req.Header with contentLength := (b.length : Int) } }
      let req := { req with Header := { req.Header with contentType := str "application/json" } }
      ({ h with req := req }, none)
  | none => (h, none)

/-- State of a builder after a call that dispatches, the returned error and the
calls made on the collaborators. -/
structure Dispatch where
  h : http
  err : Option GoError
  events : List Event
deriving DecidableEq, Repr

/-- Go `(*http).do`. `none` is a panic (of `buildQueryString`). -/
def http.«do» (h : http) (t : Transport) (order : QueryMap) : Option Dispatch :=
  match h.buildQueryString order with
  | none => none
  | some qs =>
    let uri := { h.uri with queryString := qs }
    let req := { h.req with uri := uri }
    let req := { req with Header := { req.Header with method := h.method } }
    let timeout := if h.timeout ≤ 0 then Second * 60 else h.timeout
    let h := { h with uri := uri, req := req, timeout := timeout }
    if h.usedH2 then
      let r := t.h2c h.req h.resp h.timeout
      some { h := { h with resp := r.1 }, err := r.2, events := [Event.DoTimeout true h.req h.timeout] }
    else
      let r := t.c h.req h.resp h.timeout
      some { h := { h with resp := r.1 }, err := r.2, events := [Event.DoTimeout false h.req h.timeout] }

/-- The deferred block of the terminal calls: `fasthttp.ReleaseResponse(h.resp)`
then `fasthttp.ReleaseRequest(h.req)`; a released object is reset. -/
def http.release (d : Dispatch) : Dispatch :=
  { h := { d.h with resp := fasthttp.AcquireResponse, req := fasthttp.AcquireRequest }
    err := d.err
    events := d.events ++ [Event.ReleaseResponse, Event.ReleaseRequest] }

/-- Go `(*http).String`: the returned string with the final state; `none` is a
panic. -/
def http.String (h : http) (t : Transport) (order : QueryMap) : Option (GoString × Dispatch) :=
  match h.«do» t order with
  | none => none
  | some d =>
    match d.err with
    | some _ => some ([], d)
    | none =>
      let b := d.h.resp.body
      some (b, http.release d)

/-- Go `(*http).Bytes`: the returned bytes (`[]` for `nil`) with the final state. -/
def http.Bytes (h : http) (t : Transport) (order : QueryMap) : Option (GoString × Dispatch) :=
  match h.«do» t order with
  | none => none
  | some d =>
    match d.err with
    | some _ => some ([], d)
    | none =>
      let b := d.h.resp.body
      some (b, http.release d)

/-- Go `(*http).Response`: the returned copy (`none` for `nil`) with the final
state. -/
def http.Response (h : http) (t : Transport) (order : QueryMap) :
    Option (Option fasthttp.Response × Dispatch) :=
  match h.«do» t order with
  | none => none
  | some d =>
    match d.err with
    | some _ => some (none, d)
    | none =>
      let resp := d.h.resp
      some (some resp, http.release d)

/-- Number of `ReleaseRequest` calls in a trace. -/
def requestReleases (events : List Event) : Nat := events.count Event.ReleaseRequest

/-- Number of `ReleaseResponse` calls in a trace. -/
def responseReleases (events : List Event) : Nat := events.count Event.ReleaseResponse

/-- The escaped pairs of a parameter map, entry by entry in the order given and,
within one entry, in the order of its value list. -/
def escapedPairs (order : QueryMap) : List GoString :=
  order.flatMap fun kv => kv.2.map fun vv => QueryEscape kv.1 ++ [byte '='] ++ QueryEscape vv

/-- The contract of `JsonBody` in the words of the specification: when the
serialization of `obj` succeeds the body is the serialized bytes, the content
length their length, the content type `application/json` and no error is
returned; when it fails an error is returned and the three are unchanged. -/
def JsonBodyContract {α : Type} (encode : Option α → Except GoError GoString) (h : http)
    (obj : Option α) : Prop :=
  match encode obj with
  | .ok b =>
    (h.JsonBody encode obj).2 = none
      ∧ (h.JsonBody encode obj).1.req.body = b
      ∧ (h.JsonBody encode obj).1.req.Header.contentLength = (b.length : Int)
      ∧ (h.JsonBody encode obj).1.req.Header.contentType = str "application/json"
  | .error _ =>
    (h.JsonBody encode obj).2 ≠ none
      ∧ (h.JsonBody encode obj).1.req.body = h.req.body
      ∧ (h.JsonBody encode obj).1.req.Header.contentLength = h.req.Header.contentLength
      ∧ (h.JsonBody encode obj).1.req.Header.contentType = h.req.Header.contentType

/-! ## Example inputs -/

/-- Builder state of `Get("http://x/y?z=1")`: `fasthttp` has parsed the URL. -/
def exampleGet : http :=
  { new MethodGet with
    uri := { scheme := str "http", host := str "x", path := str "/y", queryString := str "z=1" } }

/-- Builder state of `Get("http://x/y")`: the URL has no query string. -/
def exampleGetNoQuery : http :=
  { new MethodGet with
    uri := { scheme := str "http", host := str "x", path := str "/y", queryString := [] } }

/-- Builder state of `Get("http://x/y?z=1").Param("w", "2")`. -/
def exampleParam : http := exampleGet.Param (str "w") (str "2")

/-- Clients whose timed execution fails with a timeout. -/
def failingTransport : Transport :=
  { c := fun _ resp _ => (resp, some (GoError.mk (str "timeout")))
    h2c := fun _ resp _ => (resp, some (GoError.mk (str "timeout"))) }

/-- Clients that answer with the query string of the request as the body. -/
def echoTransport : Transport :=
  { c := fun req resp _ => ({ resp with body := req.uri.queryString }, none)
    h2c := fun req resp _ => ({ resp with body := req.uri.queryString }, none) }

/-- What `encoding/json` writes for `nil` and for the Go values `true` and
`false`. -/
def encodeBool : Option Bool → Except GoError GoString
  | none => .ok (str "null\n")
  | some true => .ok (str "true\n")
  | some false => .ok (str "false\n")

/-- An encoder that rejects every value (as `encoding/json` rejects a channel). -/
def encodeFails : Option Bool → Except GoError GoString :=
  fun _ => .error (GoError.mk (str "json: unsupported type"))

/-! # Theorems -/

/-! ## Query merger: `buildQueryString` -/

/-- Cutting the last byte off a buffer that ends in one extra byte never panics. -/
theorem slice0_append_singleton (s : GoString) (b : UInt8) :
    slice0 (s ++ [b]) (((s ++ [b]).length : Int) - 1) = some s := by
  have hlen : (((s ++ [b]).length : Int) - 1) = (s.length : Int) := by
    simp
  rw [hlen]
  unfold slice0
  have h1 : (0 : Int) ≤ (s.length : Int) := Int.ofNat_nonneg _
  have h2 : (s.length : Int) ≤ ((s ++ [b]).length : Int) := by simp
  rw [if_pos ⟨h1, h2⟩]
  simp

/-- The final slice of `buildQueryString` on an empty buffer panics. -/
theorem slice0_nil : slice0 [] ((([] : GoString).length : Int) - 1) = none := by
  decide

/-- The inner loop of `buildQueryString` appends one `key=value&` block per value. -/
theorem foldl_values_eq (k : GoString) (vals : List GoString) (buf : GoString) :
    vals.foldl
        (fun buf vv => buf ++ QueryEscape k ++ [byte '='] ++ QueryEscape vv ++ [byte '&']) buf
      = buf ++ (vals.map fun vv =>
          (QueryEscape k ++ [byte '='] ++ QueryEscape vv) ++ [byte '&']).flatten := by
  induction vals generalizing buf with
  | nil => simp
  | cons v vs ih =>
    rw [List.foldl_cons, ih]
    simp [List.append_assoc]

/-- The two nested loops of `buildQueryString` append every escaped pair of the
visited entries, each followed by `&`. -/
theorem foldl_entries_eq (order : QueryMap) (buf : GoString) :
    order.foldl
        (fun buf kv =>
          kv.2.foldl
            (fun buf vv => buf ++ QueryEscape kv.1 ++ [byte '='] ++ QueryEscape vv ++ [byte '&'])
            buf)
        buf
      = buf ++ ((escapedPairs order).map fun p => p ++ [byte '&']).flatten := by
  induction order generalizing buf with
  | nil => simp [escapedPairs]
  | cons kv rest ih =>
    rw [List.foldl_cons, ih, foldl_values_eq]
    simp [escapedPairs, List.append_assoc, List.map_map, Function.comp_def]

/-- Blocks that each end in a separator are the separator-joined blocks plus one
trailing separator. -/
theorem flatten_map_append_sep (sep : UInt8) (ps : List GoString) (hps : ps ≠ []) :
    (ps.map fun p => p ++ [sep]).flatten = List.intercalate [sep] ps ++ [sep] := by
  induction ps with
  | nil => exact absurd rfl hps
  | cons p rest ih =>
    cases rest with
    | nil => simp [List.intercalate]
    | cons p2 rest2 =>
      have h := ih (List.cons_ne_nil _ _)
      simp only [List.map_cons, List.flatten_cons] at h ⊢
      rw [h]
      simp [List.intercalate, List.append_assoc]

/-- A map whose value lists are all non-empty has at least one pair when it has
at least one entry. -/
theorem escapedPairs_ne_nil (order : QueryMap) (hne : order ≠ [])
    (hvals : ∀ kv ∈ order, kv.2 ≠ []) : escapedPairs order ≠ [] := by
  cases order with
  | nil => exact absurd rfl hne
  | cons kv rest =>
    have hkv := hvals kv (List.mem_cons_self _ _)
    cases hv : kv.2 with
    | nil => exact absurd hv hkv
    | cons v vs => simp [escapedPairs, hv]

/-- The buffer of `buildQueryString` before the final slice, for a non-empty map. -/
theorem buildQueryString_of_ne_nil (h : http) (order : QueryMap) (hne : h.qs ≠ []) :
    h.buildQueryString order
      = slice0
          (h.uri.queryString ++ [byte '&']
            ++ ((escapedPairs order).map fun p => p ++ [byte '&']).flatten)
          (((h.uri.queryString ++ [byte '&']
            ++ ((escapedPairs order).map fun p => p ++ [byte '&']).flatten).length : Int) - 1) := by
  have hlen : h.qs.length > 0 := List.length_pos.mpr hne
  unfold http.buildQueryString
  simp only [hlen, if_true, foldl_entries_eq]

/-- With an empty map `buildQueryString` slices the existing query string itself. -/
theorem buildQueryString_of_nil (h : http) (order : QueryMap) (hnil : h.qs = []) :
    h.buildQueryString order
      = slice0 h.uri.queryString ((h.uri.queryString.length : Int) - 1) := by
  unfold http.buildQueryString
  simp [hnil]

/-! ## Cookie-line parser: `readCookies` -/

/-- The first component of `Cut` is the text before the first separator. -/
theorem Cut_before (s : GoString) (sep : UInt8) :
    (Cut s sep).1 = s.takeWhile (fun b => b != sep) := by
  induction s with
  | nil => rfl
  | cons c cs ih =>
    by_cases hc : c = sep
    · simp [Cut, hc]
    · simp [Cut, hc, ih]

/-- The second component of `Cut` is the text after the first separator. -/
theorem Cut_after (s : GoString) (sep : UInt8) :
    (Cut s sep).2.1 = (s.dropWhile (fun b => b != sep)).drop 1 := by
  induction s with
  | nil => rfl
  | cons c cs ih =>
    by_cases hc : c = sep
    · simp [Cut, hc]
    · simp [Cut, hc, ih]

/-- What `Cut` leaves is never longer than what it was given. -/
theorem Cut_after_length_le (s : GoString) (sep : UInt8) :
    (Cut s sep).2.1.length ≤ s.length := by
  induction s with
  | nil => simp [Cut]
  | cons c cs ih =>
    by_cases hc : c = sep
    · simp [Cut, hc]
    · simp only [Cut, hc, if_false, List.length_cons]
      omega

/-- Every pass of the loop of `readCookies` shortens the line. -/
theorem Cut_after_length_lt (c : UInt8) (cs : GoString) (sep : UInt8) :
    (Cut (c :: cs) sep).2.1.length < (c :: cs).length := by
  by_cases hc : c = sep
  · simp [Cut, hc]
  · have h := Cut_after_length_le cs sep
    simp only [Cut, hc, if_false, List.length_cons]
    omega

/-- Splitting on a separator, one `Cut` at a time. -/
theorem splitOn_eq_Cut (s : GoString) (sep : UInt8) :
    s.splitOn sep
      = if (Cut s sep).2.2 then (Cut s sep).1 :: (Cut s sep).2.1.splitOn sep else [s] := by
  induction s with
  | nil => simp [Cut, List.splitOn]
  | cons c cs ih =>
    by_cases hc : c = sep
    · simp [Cut, hc, List.splitOn]
    · have hb : (c == sep) = false := by simpa using hc
      unfold List.splitOn at ih ⊢
      rw [List.splitOnP_cons, hb, ih]
      simp only [Cut, hc, if_false]
      by_cases hf : (Cut cs sep).2.2 = true
      · simp [hf, List.modifyHead]
      · simp [hf, List.modifyHead]

/-- When the separator is absent `Cut` returns the whole text and nothing after. -/
theorem Cut_not_found (s : GoString) (sep : UInt8) (hf : (Cut s sep).2.2 = false) :
    (Cut s sep).1 = s ∧ (Cut s sep).2.1 = [] := by
  induction s with
  | nil => simp [Cut]
  | cons c cs ih =>
    by_cases hc : c = sep
    · simp [Cut, hc] at hf
    · simp only [Cut, hc, if_false] at hf ⊢
      have h := ih hf
      simp [h.1, h.2]

/-- The trimmed empty text is empty. -/
theorem TrimString_nil : TrimString [] = [] := by
  decide

/-- The non-empty trimmed segments of a split line: those of the first cut, then
those of the rest. -/
theorem segments_splitOn (s : GoString) :
    ((s.splitOn (byte ';')).map TrimString).filter (fun seg => seg ≠ [])
      = (([(Cut s (byte ';')).1] ++ (Cut s (byte ';')).2.1.splitOn (byte ';')).map
          TrimString).filter (fun seg => seg ≠ []) := by
  rw [splitOn_eq_Cut s (byte ';')]
  by_cases hf : (Cut s (byte ';')).2.2 = true
  · simp [hf]
  · have hf2 : (Cut s (byte ';')).2.2 = false := by simpa using hf
    have h := Cut_not_found s (byte ';') hf2
    simp [hf2, h.1, h.2, List.splitOn, TrimString_nil, List.filter_cons]

/-- With enough passes available the loop of `readCookies` appends, to the
records it already has, the records of the non-empty trimmed segments of the
line. -/
theorem readCookiesLoop_eq (fuel : Nat) (line : GoString) (cookies : List Cookie)
    (hfuel : line.length ≤ fuel) :
    readCookiesLoop fuel line cookies
      = some (cookies ++
          (((line.splitOn (byte ';')).map TrimString).filter (fun seg => seg ≠ [])).map
            cookieOfSegment) := by
  induction fuel generalizing line cookies with
  | zero =>
    have hl : line = [] := List.length_eq_zero.mp (Nat.le_zero.mp hfuel)
    subst hl
    simp [readCookiesLoop, List.splitOn, TrimString_nil]
  | succ n ih =>
    cases line with
    | nil => simp [readCookiesLoop, List.splitOn, TrimString_nil]
    | cons c cs =>
      have hlt := Cut_after_length_lt c cs (byte ';')
      have hrest : (Cut (c :: cs) (byte ';')).2.1.length ≤ n := by
        simp only [List.length_cons] at hfuel hlt
        omega
      rw [segments_splitOn (c :: cs)]
      simp only [readCookiesLoop]
      generalize (Cut (c :: cs) (byte ';')).2.1 = rest at hrest ⊢
      generalize (Cut (c :: cs) (byte ';')).1 = part
      by_cases hp : TrimString part = []
      · rw [if_pos hp, ih _ _ hrest]
        simp [hp, List.filter_cons]
      · rw [if_neg hp, ih _ _ hrest]
        simp [hp, List.filter_cons, cookieOfSegment, Cut_before, Cut_after]

/-! ## Claims on the query merger -/

/-- A fresh builder satisfies the invariant of the parameter map: no key has an
empty value list. -/
theorem new_values_ne_nil (method : GoString) : ∀ kv ∈ (new method).qs, kv.2 ≠ [] := by
  intro kv hkv
  simp [new] at hkv

/-- Writing a non-empty value list keeps every value list of the map non-empty. -/
theorem mapSet_values_ne_nil (m : QueryMap) (k : GoString) (v : List GoString) (hv : v ≠ [])
    (hm : ∀ kv ∈ m, kv.2 ≠ []) : ∀ kv ∈ mapSet m k v, kv.2 ≠ [] := by
  induction m with
  | nil =>
    intro kv hkv
    simp only [mapSet, List.mem_singleton] at hkv
    subst hkv
    exact hv
  | cons e rest ih =>
    intro kv hkv
    by_cases he : e.1 = k
    · simp only [mapSet, he, if_true, List.mem_cons] at hkv
      rcases hkv with hkv | hkv
      · subst hkv
        exact hv
      · exact hm kv (List.mem_cons_of_mem _ hkv)
    · simp only [mapSet, he, if_false, List.mem_cons] at hkv
      rcases hkv with hkv | hkv
      · subst hkv
        exact hm _ (List.mem_cons_self _ _)
      · exact ih (fun x hx => hm x (List.mem_cons_of_mem _ hx)) kv hkv

/-- `Param` keeps the invariant of the parameter map: no key has an empty value
list. -/
theorem Param_values_ne_nil (h : http) (k v : GoString) (hm : ∀ kv ∈ h.qs, kv.2 ≠ []) :
    ∀ kv ∈ (h.Param k v).qs, kv.2 ≠ [] := by
  unfold http.Param
  cases hg : mapGet h.qs k with
  | none => exact mapSet_values_ne_nil _ _ _ (by simp) hm
  | some m => exact mapSet_values_ne_nil _ _ _ (by simp) hm

/-- With an empty parameter map and a non-empty existing query string,
`buildQueryString` returns the query string without its last byte. -/
theorem buildQueryString_empty_map (h : http) (order : QueryMap) (hnil : h.qs = [])
    (hq : h.uri.queryString ≠ []) :
    h.buildQueryString order = some h.uri.queryString.dropLast := by
  rw [buildQueryString_of_nil h order hnil]
  have hs := List.dropLast_concat_getLast hq
  have hcut := slice0_append_singleton h.uri.queryString.dropLast (h.uri.queryString.getLast hq)
  rw [hs] at hcut
  exact hcut

/-- With an empty parameter map and an empty existing query string,
`buildQueryString` panics. -/
theorem buildQueryString_empty_map_empty_query (h : http) (order : QueryMap)
    (hnil : h.qs = []) (hq : h.uri.queryString = []) : h.buildQueryString order = none := by
  rw [buildQueryString_of_nil h order hnil, hq]
  exact slice0_nil

/-- With an empty existing query string and a non-empty parameter map, whatever
the visiting order, the result of `buildQueryString` starts with `&`. -/
theorem buildQueryString_empty_query_head (h : http) (order : QueryMap)
    (hq : h.uri.queryString = []) (hne : h.qs ≠ []) (hvals : ∀ kv ∈ h.qs, kv.2 ≠ [])
    (horder : order.Perm h.qs) :
    ∃ rest, h.buildQueryString order = some (byte '&' :: rest) := by
  have hone : order ≠ [] := by
    intro hnil
    rw [hnil] at horder
    exact hne (List.Perm.nil_eq horder).symm
  have hpairs := escapedPairs_ne_nil order hone
    (fun kv hkv => hvals kv (horder.subset hkv))
  refine ⟨List.intercalate [byte '&'] (escapedPairs order), ?_⟩
  rw [buildQueryString_of_ne_nil h order hne, flatten_map_append_sep _ _ hpairs,
    ← List.append_assoc, hq]
  exact slice0_append_singleton _ _

/-- C1 (defect of the code). With an empty parameter map `buildQueryString`
does not return the existing query string: for `Get("http://x/y?z=1")`, whose
query string is `z=1` and whose map is empty, it returns `z=`. The final slice
cuts one byte although no `&` was appended. -/
theorem buildQueryString_empty_map_cuts_query :
    exampleGet.qs = [] ∧ exampleGet.uri.queryString = str "z=1"
      ∧ exampleGet.buildQueryString exampleGet.qs = some (str "z=")
      ∧ exampleGet.buildQueryString exampleGet.qs ≠ some exampleGet.uri.queryString := by
  decide

/-- C2 (defect of the code). With an empty existing query string and a non-empty
parameter map the result starts with `&`: for `Get("http://x/y").Param("w","2")`
`buildQueryString` returns `&w=2`. -/
theorem buildQueryString_empty_query_starts_with_amp :
    (exampleGetNoQuery.Param (str "w") (str "2")).uri.queryString = []
      ∧ (exampleGetNoQuery.Param (str "w") (str "2")).qs = [(str "w", [str "2"])]
      ∧ (exampleGetNoQuery.Param (str "w") (str "2")).buildQueryString
          (exampleGetNoQuery.Param (str "w") (str "2")).qs = some (str "&w=2")
      ∧ (str "&w=2").head? = some (byte '&') := by
  decide

/-- C3 (defect of the code). With an empty existing query string and an empty
parameter map `buildQueryString` does not return the empty string: for
`Get("http://x/y")` the slice `queryString[0 : len(queryString)-1]` has the upper
bound `-1`, which is out of bounds, and the call panics. -/
theorem buildQueryString_empty_empty_panics :
    exampleGetNoQuery.uri.queryString = [] ∧ exampleGetNoQuery.qs = []
      ∧ slice0 exampleGetNoQuery.uri.queryString (-1) = none
      ∧ exampleGetNoQuery.buildQueryString exampleGetNoQuery.qs = none := by
  decide

/-- C4. For every existing query string and every non-empty parameter map of a
builder (no key of which has an empty value list, as `new` and `Param`
guarantee), and for every order in which the map is visited,
`buildQueryString` returns the existing query string, then `&`, then the pairs
`QueryEscape(key)`, `=`, `QueryEscape(value)` joined by `&` without a trailing `&`;
the pairs are listed key by key in the visiting order, which is an ordering of
the keys of the map, within one key in the order of its value list, and they
are the pairs of the entries of the map, each once. -/
theorem buildQueryString_appends_escaped_pairs (h : http) (order : QueryMap)
    (hne : h.qs ≠ []) (hvals : ∀ kv ∈ h.qs, kv.2 ≠ []) (horder : order.Perm h.qs) :
    h.buildQueryString order
        = some (h.uri.queryString ++ [byte '&']
            ++ List.intercalate [byte '&'] (escapedPairs order))
      ∧ (order.map Prod.fst).Perm (h.qs.map Prod.fst)
      ∧ (escapedPairs order).Perm (escapedPairs h.qs) := by
  have hone : order ≠ [] := by
    intro hnil
    rw [hnil] at horder
    exact hne (List.Perm.nil_eq horder).symm
  have hovals : ∀ kv ∈ order, kv.2 ≠ [] := fun kv hkv => hvals kv (horder.subset hkv)
  have hpairs := escapedPairs_ne_nil order hone hovals
  refine ⟨?_, horder.map Prod.fst, ?_⟩
  · rw [buildQueryString_of_ne_nil h order hne, flatten_map_append_sep _ _ hpairs,
      ← List.append_assoc]
    exact slice0_append_singleton _ _
  · unfold escapedPairs
    exact List.Perm.flatMap_right _ horder

/-- C4 at an input: the existing query string `z=1` with the single parameter
`("w", "2")` yields `z=1&w=2`. -/
theorem buildQueryString_appends_escaped_pairs_witness :
    (exampleGet.Param (str "w") (str "2")).qs ≠ []
      ∧ (∀ kv ∈ (exampleGet.Param (str "w") (str "2")).qs, kv.2 ≠ [])
      ∧ (exampleGet.Param (str "w") (str "2")).buildQueryString
          (exampleGet.Param (str "w") (str "2")).qs = some (str "z=1&w=2") := by
  have hw := buildQueryString_appends_escaped_pairs (exampleGet.Param (str "w") (str "2"))
    (exampleGet.Param (str "w") (str "2")).qs (by decide) (by decide) (List.Perm.refl _)
  refine ⟨by decide, by decide, ?_⟩
  rw [hw.1]
  decide

/-- Two visiting orders of one map: after `Param("a","1")`, `Param("b","2 3")` and
`Param("a","&")` the map has the keys `a` and `b`; visiting `a` first gives
`z=1&a=1&a=%26&b=2+3`, visiting `b` first gives `z=1&b=2+3&a=1&a=%26`. -/
theorem buildQueryString_two_orders :
    (((exampleGet.Param (str "a") (str "1")).Param (str "b") (str "2 3")).Param
        (str "a") (str "&")).qs = [(str "a", [str "1", str "&"]), (str "b", [str "2 3"])]
      ∧ (((exampleGet.Param (str "a") (str "1")).Param (str "b") (str "2 3")).Param
          (str "a") (str "&")).buildQueryString
            [(str "a", [str "1", str "&"]), (str "b", [str "2 3"])]
          = some (str "z=1&a=1&a=%26&b=2+3")
      ∧ (((exampleGet.Param (str "a") (str "1")).Param (str "b") (str "2 3")).Param
          (str "a") (str "&")).buildQueryString
            [(str "b", [str "2 3"]), (str "a", [str "1", str "&"])]
          = some (str "z=1&b=2+3&a=1&a=%26") := by
  decide

/-! ## Claims on the cookie-line parser -/

/-- C5. For every input line `readCookies` returns (it never runs out of
passes) the records of the specification's parser: one record per non-empty
trimmed segment of the trimmed line split on `;`, in input order and without
deduplication, the name being the text before the first `=` of the segment and
the value all text after it (a segment without `=` gives the whole segment and
the empty value). The empty line gives the empty sequence and `a=1;b=2` gives
`[{a,1},{b,2}]`. -/
theorem readCookies_eq_parseCookieLine :
    (∀ line : GoString, readCookies line = some (parseCookieLine line))
      ∧ readCookies [] = some []
      ∧ readCookies (str "a=1;b=2")
          = some [{ Name := str "a", Value := str "1" }, { Name := str "b", Value := str "2" }]
      ∧ cookieOfSegment (str "b=2=3") = { Name := str "b", Value := str "2=3" }
      ∧ cookieOfSegment (str "flag") = { Name := str "flag", Value := [] }
      ∧ readCookies (str "a=1;a=1")
          = some [{ Name := str "a", Value := str "1" }, { Name := str "a", Value := str "1" }] := by
  refine ⟨?_, by decide, by decide, by decide, by decide, by decide⟩
  intro line
  unfold readCookies parseCookieLine cookieSegments
  by_cases hl : line.length = 0
  · have hnil : line = [] := List.length_eq_zero.mp hl
    subst hnil
    simp [TrimString_nil, List.splitOn]
  · rw [if_neg hl]
    simpa using readCookiesLoop_eq (TrimString line).length (TrimString line) [] (Nat.le_refl _)

/-- C6, refuted as stated. For the line `" a = 1 ; ; b=2=3 "` the records are not
`{a,1}` and `{b,2=3}`. -/
theorem readCookies_does_not_trim_around_eq :
    readCookies (str " a = 1 ; ; b=2=3 ")
      ≠ some [{ Name := str "a", Value := str "1" }, { Name := str "b", Value := str "2=3" }] := by
  decide

/-- C6, amended. For the line `" a = 1 ; ; b=2=3 "` `readCookies` returns exactly
two records, in this order: name `"a "` with value `" 1"`, and name `"b"` with
value `"2=3"`. The whitespace around each segment is removed, the whitespace
next to the `=` inside a segment is kept, the empty segment is skipped and only
the first `=` splits the last segment. -/
theorem readCookies_example_line :
    readCookies (str " a = 1 ; ; b=2=3 ")
      = some [{ Name := str "a ", Value := str " 1" }, { Name := str "b", Value := str "2=3" }] := by
  decide

/-! ## Claims on dispatch and the terminal calls -/

/-- A dispatch that does not panic makes exactly one call of `DoTimeout`, on the
client of the builder's mode, and returns the error of that call. -/
theorem do_of_buildQueryString (h : http) (t : Transport) (order : QueryMap) (qs : GoString)
    (hqs : h.buildQueryString order = some qs) :
    ∃ d, h.«do» t order = some d
      ∧ d.events = [Event.DoTimeout h.usedH2
          { h.req with
            uri := { h.uri with queryString := qs }
            Header := { h.req.Header with method := h.method } }
          (if h.timeout ≤ 0 then Second * 60 else h.timeout)]
      ∧ d.err = ((if h.usedH2 then t.h2c else t.c)
          { h.req with
            uri := { h.uri with queryString := qs }
            Header := { h.req.Header with method := h.method } }
          h.resp (if h.timeout ≤ 0 then Second * 60 else h.timeout)).2 := by
  unfold http.«do»
  rw [hqs]
  cases hmode : h.usedH2 <;> simp [hmode]

/-- C8. For every builder, in both transport modes, a dispatch that reaches the
transport (the query merge does not panic) makes one call of the timed
execution of the client of its mode, and the timeout it passes is 60 seconds
when the configured timeout is zero (unset) or negative and exactly the
configured timeout when it is positive. -/
theorem do_passes_effective_timeout (h : http) (t : Transport) (order : QueryMap)
    (qs : GoString) (hqs : h.buildQueryString order = some qs) :
    ∃ d, h.«do» t order = some d
      ∧ d.events = [Event.DoTimeout h.usedH2
          { h.req with
            uri := { h.uri with queryString := qs }
            Header := { h.req.Header with method := h.method } }
          (if h.timeout ≤ 0 then 60000000000 else h.timeout)] := by
  obtain ⟨d, hd, hev, _⟩ := do_of_buildQueryString h t order qs hqs
  refine ⟨d, hd, ?_⟩
  rw [hev]
  rfl

/-- C8 at an input: `Get("http://x/y?z=1").Param("w","2")`, whose timeout is unset,
dispatches once over the HTTP/1.1 client with a timeout of 60 seconds. -/
theorem do_passes_effective_timeout_witness :
    exampleParam.buildQueryString exampleParam.qs = some (str "z=1&w=2")
      ∧ ∃ d, exampleParam.«do» echoTransport exampleParam.qs = some d
        ∧ d.events = [Event.DoTimeout exampleParam.usedH2
            { exampleParam.req with
              uri := { exampleParam.uri with queryString := str "z=1&w=2" }
              Header := { exampleParam.req.Header with method := exampleParam.method } }
            (if exampleParam.timeout ≤ 0 then 60000000000 else exampleParam.timeout)] :=
  ⟨by decide,
    do_passes_effective_timeout exampleParam echoTransport exampleParam.qs (str "z=1&w=2")
      (by decide)⟩

/-- The timeouts passed by four dispatches: unset and negative give 60 seconds, a
positive one is passed as it is, in both transport modes. -/
theorem do_timeout_examples :
    (exampleParam.«do» echoTransport exampleParam.qs).map
        (fun d => d.events.map fun e =>
          match e with
          | Event.DoTimeout usedH2 _ timeout => (usedH2, timeout)
          | _ => (false, 0))
        = some [(false, 60 * Second)]
      ∧ ((exampleParam.SetTimeout (-1)).«do» echoTransport exampleParam.qs).map
          (fun d => d.events.map fun e =>
            match e with
            | Event.DoTimeout usedH2 _ timeout => (usedH2, timeout)
            | _ => (false, 0))
          = some [(false, 60 * Second)]
      ∧ ((exampleParam.SetTimeout (5 * Second)).«do» echoTransport exampleParam.qs).map
          (fun d => d.events.map fun e =>
            match e with
            | Event.DoTimeout usedH2 _ timeout => (usedH2, timeout)
            | _ => (false, 0))
          = some [(false, 5 * Second)]
      ∧ ((((newH2 MethodGet).Param (str "w") (str "2")).SetTimeout (5 * Second)).«do»
            echoTransport [(str "w", [str "2"])]).map
          (fun d => d.events.map fun e =>
            match e with
            | Event.DoTimeout usedH2 _ timeout => (usedH2, timeout)
            | _ => (false, 0))
          = some [(true, 5 * Second)] := by
  decide

/-- The deferred block releases the response and the request once each. -/
theorem release_counts (d : Dispatch)
    (hreq : requestReleases d.events = 0) (hresp : responseReleases d.events = 0) :
    requestReleases (http.release d).events = 1
      ∧ responseReleases (http.release d).events = 1 := by
  unfold requestReleases responseReleases at *
  simp [http.release, List.count_append, hreq, hresp, List.count_cons]

/-- What `String` does after a dispatch that did not panic: on a transport error
it returns the error and releases nothing; on success it returns the body and
releases the response and the request once each. -/
theorem String_of_do (h : http) (t : Transport) (order : QueryMap) (d : Dispatch)
    (hd : h.«do» t order = some d) :
    h.String t order
      = some (if d.err = none then (d.h.resp.body, http.release d) else ([], d)) := by
  unfold http.String
  rw [hd]
  cases he : d.err <;> simp [he]

/-- What `Bytes` does after a dispatch that did not panic. -/
theorem Bytes_of_do (h : http) (t : Transport) (order : QueryMap) (d : Dispatch)
    (hd : h.«do» t order = some d) :
    h.Bytes t order
      = some (if d.err = none then (d.h.resp.body, http.release d) else ([], d)) := by
  unfold http.Bytes
  rw [hd]
  cases he : d.err <;> simp [he]

/-- What `Response` does after a dispatch that did not panic. -/
theorem Response_of_do (h : http) (t : Transport) (order : QueryMap) (d : Dispatch)
    (hd : h.«do» t order = some d) :
    h.Response t order
      = some (if d.err = none then (some d.h.resp, http.release d) else (none, d)) := by
  unfold http.Response
  rw [hd]
  cases he : d.err <;> simp [he]

/-- A dispatch that does not panic releases nothing itself. -/
theorem do_releases_nothing (h : http) (t : Transport) (order : QueryMap) (d : Dispatch)
    (hd : h.«do» t order = some d) :
    requestReleases d.events = 0 ∧ responseReleases d.events = 0 := by
  cases hb : h.buildQueryString order with
  | none => simp [http.«do», hb] at hd
  | some qs =>
    obtain ⟨d2, hd2, hev, _⟩ := do_of_buildQueryString h t order qs hb
    rw [hd] at hd2
    have hdd : d = d2 := Option.some.inj hd2
    subst hdd
    exact ⟨by simp [requestReleases, hev], by simp [responseReleases, hev]⟩

/-- C7, refuted as stated. Over clients whose execute step fails with a timeout,
one call of `String`, of `Bytes` and of `Response` on
`Get("http://x/y?z=1").Param("w","2")` returns the error and releases the
request and the response zero times each, not once. -/
theorem terminal_calls_release_nothing_on_transport_error :
    (exampleParam.String failingTransport exampleParam.qs).map
        (fun r => (r.2.err, requestReleases r.2.events, responseReleases r.2.events))
        = some (some (GoError.mk (str "timeout")), 0, 0)
      ∧ (exampleParam.Bytes failingTransport exampleParam.qs).map
          (fun r => (r.2.err, requestReleases r.2.events, responseReleases r.2.events))
          = some (some (GoError.mk (str "timeout")), 0, 0)
      ∧ (exampleParam.Response failingTransport exampleParam.qs).map
          (fun r => (r.2.err, requestReleases r.2.events, responseReleases r.2.events))
          = some (some (GoError.mk (str "timeout")), 0, 0)
      ∧ (exampleParam.String failingTransport exampleParam.qs).map
          (fun r => (requestReleases r.2.events, responseReleases r.2.events)) ≠ some (1, 1)
      ∧ (exampleParam.Bytes failingTransport exampleParam.qs).map
          (fun r => (requestReleases r.2.events, responseReleases r.2.events)) ≠ some (1, 1)
      ∧ (exampleParam.Response failingTransport exampleParam.qs).map
          (fun r => (requestReleases r.2.events, responseReleases r.2.events)) ≠ some (1, 1) := by
  decide

/-- C7, amended. For each of the three terminal extractors `String`, `Bytes` and
`Response`, and for every builder, transport and visiting order, one call that
reaches the dispatch step (the query merge does not panic) returns, with the
error of the transport's execute step as it is; when the execute step succeeds
the call releases the request and the response exactly once each before it
returns, and when the execute step fails it releases neither. -/
theorem terminal_calls_release (h : http) (t : Transport) (order : QueryMap) (qs : GoString)
    (hqs : h.buildQueryString order = some qs) :
    ∃ d rs rb rr, h.«do» t order = some d
      ∧ d.err = ((if h.usedH2 then t.h2c else t.c)
          { h.req with
            uri := { h.uri with queryString := qs }
            Header := { h.req.Header with method := h.method } }
          h.resp (if h.timeout ≤ 0 then Second * 60 else h.timeout)).2
      ∧ h.String t order = some rs ∧ h.Bytes t order = some rb ∧ h.Response t order = some rr
      ∧ rs.2.err = d.err ∧ rb.2.err = d.err ∧ rr.2.err = d.err
      ∧ requestReleases rs.2.events = (if d.err = none then 1 else 0)
      ∧ responseReleases rs.2.events = (if d.err = none then 1 else 0)
      ∧ requestReleases rb.2.events = (if d.err = none then 1 else 0)
      ∧ responseReleases rb.2.events = (if d.err = none then 1 else 0)
      ∧ requestReleases rr.2.events = (if d.err = none then 1 else 0)
      ∧ responseReleases rr.2.events = (if d.err = none then 1 else 0) := by
  obtain ⟨d, hd, _, herr⟩ := do_of_buildQueryString h t order qs hqs
  have h0 := do_releases_nothing h t order d hd
  have h1 := release_counts d h0.1 h0.2
  refine ⟨d, _, _, _, hd, herr, String_of_do h t order d hd, Bytes_of_do h t order d hd,
    Response_of_do h t order d hd, ?_⟩
  by_cases hok : d.err = none
  · simp only [if_pos hok]
    exact ⟨rfl, rfl, rfl, h1.1, h1.2, h1.1, h1.2, h1.1, h1.2⟩
  · simp only [if_neg hok]
    exact ⟨trivial, trivial, trivial, h0.1, h0.2, h0.1, h0.2, h0.1, h0.2⟩

/-- C7, amended, at an input: `Get("http://x/y?z=1").Param("w","2")` reaches the
dispatch step with the query string `z=1&w=2`; over clients that time out the
three terminal calls return and their release counts are those of the failed
execute step. -/
theorem terminal_calls_release_witness :
    exampleParam.buildQueryString exampleParam.qs = some (str "z=1&w=2")
      ∧ ∃ d rs rb rr, exampleParam.«do» failingTransport exampleParam.qs = some d
        ∧ d.err = ((if exampleParam.usedH2 then failingTransport.h2c else failingTransport.c)
            { exampleParam.req with
              uri := { exampleParam.uri with queryString := str "z=1&w=2" }
              Header := { exampleParam.req.Header with method := exampleParam.method } }
            exampleParam.resp
            (if exampleParam.timeout ≤ 0 then Second * 60 else exampleParam.timeout)).2
        ∧ exampleParam.String failingTransport exampleParam.qs = some rs
        ∧ exampleParam.Bytes failingTransport exampleParam.qs = some rb
        ∧ exampleParam.Response failingTransport exampleParam.qs = some rr
        ∧ rs.2.err = d.err ∧ rb.2.err = d.err ∧ rr.2.err = d.err
        ∧ requestReleases rs.2.events = (if d.err = none then 1 else 0)
        ∧ responseReleases rs.2.events = (if d.err = none then 1 else 0)
        ∧ requestReleases rb.2.events = (if d.err = none then 1 else 0)
        ∧ responseReleases rb.2.events = (if d.err = none then 1 else 0)
        ∧ requestReleases rr.2.events = (if d.err = none then 1 else 0)
        ∧ responseReleases rr.2.events = (if d.err = none then 1 else 0) :=
  ⟨by decide,
    terminal_calls_release exampleParam failingTransport exampleParam.qs (str "z=1&w=2")
      (by decide)⟩

/-- The terminal calls over clients that answer with the query string: each
releases the request and the response once, and `String` returns `z=1&w=2`. -/
theorem terminal_calls_success_examples :
    (exampleParam.String echoTransport exampleParam.qs).map
        (fun r => (r.1, r.2.err, requestReleases r.2.events, responseReleases r.2.events))
        = some (str "z=1&w=2", none, 1, 1)
      ∧ (exampleParam.Bytes echoTransport exampleParam.qs).map
          (fun r => (r.2.err, requestReleases r.2.events, responseReleases r.2.events))
          = some (none, 1, 1)
      ∧ (exampleParam.Response echoTransport exampleParam.qs).map
          (fun r => (r.2.err, requestReleases r.2.events, responseReleases r.2.events))
          = some (none, 1, 1) := by
  decide

/-! ## Claims on the configuration calls -/

/-- Reading a map after a write: the written key has the written value, every
other key has the value it had. -/
theorem mapGet_mapSet (m : QueryMap) (k : GoString) (v : List GoString) (k2 : GoString) :
    mapGet (mapSet m k v) k2 = if k2 = k then some v else mapGet m k2 := by
  induction m with
  | nil =>
    by_cases h2 : k2 = k
    · simp [mapSet, mapGet, h2]
    · have h3 : ¬ k = k2 := fun e => h2 e.symm
      simp [mapSet, mapGet, h2, h3]
  | cons e rest ih =>
    by_cases he : e.1 = k
    · by_cases h2 : k2 = k
      · simp [mapSet, mapGet, he, h2]
      · have h3 : ¬ k = k2 := fun e => h2 e.symm
        simp [mapSet, mapGet, he, h2, h3]
    · by_cases h2 : k2 = k
      · subst h2
        simpa [mapSet, mapGet, he] using ih
      · by_cases h4 : e.1 = k2
        · simp [mapSet, mapGet, he, h2, h4]
        · simp [mapSet, mapGet, he, h2, h4, ih]

/-- C9. For every builder state, name `k` and value `v`, after `Param(k, v)` the
value list stored under `k` is the previous list of `k` (the empty list when `k`
was absent) with `v` appended at the end, the list of every other name is
unchanged, and the method, the transport mode and the timeout are unchanged. -/
theorem Param_appends_value (h : http) (k v : GoString) :
    (∀ k2 : GoString, mapGet (h.Param k v).qs k2
        = if k2 = k then some ((mapGet h.qs k).getD [] ++ [v]) else mapGet h.qs k2)
      ∧ (h.Param k v).method = h.method
      ∧ (h.Param k v).usedH2 = h.usedH2
      ∧ (h.Param k v).timeout = h.timeout := by
  unfold http.Param
  cases hg : mapGet h.qs k with
  | none => exact ⟨fun k2 => by simp [mapGet_mapSet], rfl, rfl, rfl⟩
  | some m => exact ⟨fun k2 => by simp [mapGet_mapSet], rfl, rfl, rfl⟩

/-- C10, refuted as stated. For the object `nil`, whose serialization succeeds with
the bytes `null` and a line feed, `JsonBody` does not set the body: the contract fails. -/
theorem JsonBody_nil_breaks_contract :
    encodeBool none = .ok (str "null\n")
      ∧ ¬ JsonBodyContract encodeBool (new MethodPost) none := by
  refine ⟨rfl, ?_⟩
  intro hc
  have hc2 : ((new MethodPost).JsonBody encodeBool none).2 = none
      ∧ ((new MethodPost).JsonBody encodeBool none).1.req.body = str "null\n"
      ∧ ((new MethodPost).JsonBody encodeBool none).1.req.Header.contentLength
          = ((str "null\n").length : Int)
      ∧ ((new MethodPost).JsonBody encodeBool none).1.req.Header.contentType
          = str "application/json" := hc
  exact absurd hc2.2.1 (by decide)

/-- C10, amended. For every object other than `nil`, `JsonBody` serializes it: when
serialization succeeds it sets the body to the serialized bytes, the content
length to their length and the content type to `application/json` and returns
no error; when serialization fails it returns an error and leaves the builder
unchanged. For `nil` it serializes nothing, leaves the builder unchanged and
returns no error. -/
theorem JsonBody_contract {α : Type} (encode : Option α → Except GoError GoString) (h : http)
    (obj : Option α) :
    match obj with
    | some x => JsonBodyContract encode h (some x)
    | none => h.JsonBody encode none = (h, none) := by
  cases obj with
  | none => rfl
  | some x =>
    unfold JsonBodyContract
    cases he : encode (some x) with
    | error e => simp [http.JsonBody, http.JSONMarshal, he]
    | ok b => simp [http.JsonBody, http.JSONMarshal, he]

end Httpkg
